import Mathlib

/-!
A shallow embedding of `src/lib/ExecutorService.cc` (Apache Pulsar C++ client).

`ExecutorService` owns a boost `io_service` reactor and one detached worker
thread.  We model the observable state of one executor as four booleans:

* `closed`        — the atomic `closed_` flag,
* `ioServiceDone` — the `ioServiceDone_` flag set by the worker on exit,
* `stopped`       — whether `io_service_.stop()` has been signaled
                    (cleared by `io_service_.restart()`),
* `running`       — whether the worker thread is live.

Blocking waits on the condition variable are modelled by recording the kind
of wait taken (`WaitKind`) and, for a bounded wait, by an environment
parameter `finishesInTime` saying whether the worker sets the finished flag
within the timeout.  A satisfied wait applies the worker's exit effect
(`workerFinish`) to the state, since returning from the wait means the worker
ran its epilogue.
-/

namespace PulsarExec

/-- Observable state of one `ExecutorService`. -/
structure ExecutorService where
  closed : Bool
  ioServiceDone : Bool
  stopped : Bool
  running : Bool
deriving DecidableEq, Repr

/-- How a call to `close` interacted with the condition variable. -/
inductive WaitKind where
  /-- returned without waiting -/
  | noWait
  /-- models `cond_.wait_for(lock, timeoutMs, ...)` -/
  | bounded (timeoutMs : Int)
  /-- models `cond_.wait(lock, ...)` -/
  | unbounded
deriving DecidableEq, Repr

/-- Result of one call to `ExecutorService::close`: the post-state, whether
this call executed `io_service_.stop()`, and what kind of wait it performed. -/
structure CloseResult where
  state : ExecutorService
  signaledStop : Bool
  wait : WaitKind
deriving DecidableEq, Repr

/-- The worker thread's exit effect (lines 44-48 of the source): sets
`ioServiceDone_ = true` under the mutex; the thread then terminates. -/
def workerFinish (s : ExecutorService) : ExecutorService :=
  { s with ioServiceDone := true, running := false }

/-- Embeds `ExecutorService::close(long timeoutMs)` (source lines 117-134).
`finishesInTime` is the environment: whether the detached worker sets the
finished flag within a positive timeout. -/
def ExecutorService.close (s : ExecutorService) (timeoutMs : Int)
    (finishesInTime : Bool) : CloseResult :=
  if s.closed then
    -- compare_exchange_strong failed: some closer already won; return.
    ⟨s, false, .noWait⟩
  else
    let s1 : ExecutorService := { s with closed := true }
    if timeoutMs = 0 then
      -- non-blocking: stop and return immediately
      ⟨{ s1 with stopped := true }, true, .noWait⟩
    else
      let s2 : ExecutorService := { s1 with stopped := true }
      if 0 < timeoutMs then
        if s2.ioServiceDone || finishesInTime then
          ⟨workerFinish s2, true, .bounded timeoutMs⟩
        else
          ⟨s2, true, .bounded timeoutMs⟩
      else
        -- timeoutMs < 0: wait until ioServiceDone_ holds
        ⟨workerFinish s2, true, .unbounded⟩

/-- Embeds `ExecutorService::start` (source lines 31-51): spawns the detached worker
thread.  Only the spawn itself is modelled here; the body of the thread is
`workerThreadBody` below. -/
def ExecutorService.start (s : ExecutorService) : ExecutorService :=
  { s with running := true }

/-- Models `io_service_.restart()`: puts the reactor back into a state where `run`
can be invoked again, i.e. clears the stopped condition. -/
def ioRestart (s : ExecutorService) : ExecutorService :=
  { s with stopped := false }

/-- What one run of the worker thread's lambda observably did on exit. -/
structure WorkerExit where
  state : ExecutorService
  /-- whether `LOG_ERROR` was emitted (iff `run` returned an error code) -/
  loggedError : Bool
  /-- whether `cond_.notify_all()` was executed -/
  notifiedAll : Bool
  /-- the body called `restart` (it never does) -/
  triggeredRestart : Bool
deriving DecidableEq, Repr

/-- The worker thread's lambda (source lines 33-49), after
`io_service_.run(ec)` has returned with error flag `ec`: log, set
`ioServiceDone_ = true` under the mutex, notify all waiters, and exit.
No error is rethrown and no restart is attempted. -/
def workerThreadBody (s : ExecutorService) (ec : Bool) : WorkerExit :=
  ⟨workerFinish s, ec, true, false⟩

/-- Result of `ExecutorService::restart`: the final state together with the
behaviour of the inner `close(-1)` call. -/
structure RestartResult where
  state : ExecutorService
  innerClose : CloseResult
deriving DecidableEq, Repr

/-- Embeds `ExecutorService::restart` (source lines 106-115): `close(-1)`, clear
`closed_`, clear `ioServiceDone_` under the mutex, `io_service_.restart()`,
then `start()`. -/
def ExecutorService.restart (s : ExecutorService) : RestartResult :=
  let c := s.close (-1) false
  let s1 : ExecutorService := { c.state with closed := false }
  let s2 : ExecutorService := { s1 with ioServiceDone := false }
  ⟨(ioRestart s2).start, c⟩

/-- Embeds the destructor (source line 29): it calls `close(0)`. -/
def ExecutorService.destructor (s : ExecutorService) : CloseResult :=
  s.close 0 false

/-- The private constructor `ExecutorService::ExecutorService()`: all flags
start false, no thread yet. -/
def ExecutorService.mkFresh : ExecutorService :=
  ⟨false, false, false, false⟩

/-- Embeds `ExecutorService::create` (source lines 53-61): construct, then `start`. -/
def ExecutorService.create : ExecutorService :=
  ExecutorService.mkFresh.start

/-- Result of a factory method: post-state, the value returned or the
exception thrown, and how many times `restart` was invoked on the way. -/
structure FactoryResult where
  state : ExecutorService
  result : Except String Unit
  restarts : Nat
deriving Repr

/-- Embeds `ExecutorService::createSocket` (source lines 67-75).  `alloc` is the
environment: `none` if the system constructs the socket, `some ewhat` if it
throws `boost::system::system_error` with description `ewhat`. -/
def ExecutorService.createSocket (s : ExecutorService) (alloc : Option String) :
    FactoryResult :=
  match alloc with
  | none => ⟨s, .ok (), 0⟩
  | some ewhat =>
      ⟨s.restart.state, .error ("Failed to create socket: " ++ ewhat), 1⟩

/-- Embeds `ExecutorService::createTcpResolver` (source lines 86-94). -/
def ExecutorService.createTcpResolver (s : ExecutorService)
    (alloc : Option String) : FactoryResult :=
  match alloc with
  | none => ⟨s, .ok (), 0⟩
  | some ewhat =>
      ⟨s.restart.state, .error ("Failed to create resolver: " ++ ewhat), 1⟩

/-- Embeds `ExecutorService::createDeadlineTimer` (source lines 96-104). -/
def ExecutorService.createDeadlineTimer (s : ExecutorService)
    (alloc : Option String) : FactoryResult :=
  match alloc with
  | none => ⟨s, .ok (), 0⟩
  | some ewhat =>
      ⟨s.restart.state, .error ("Failed to create deadline_timer: " ++ ewhat), 1⟩

/-- Embeds `ExecutorService::createTlsSocket` (source lines 77-80): wraps an existing
socket; there is no try/catch and no restart on any path. -/
def ExecutorService.createTlsSocket (s : ExecutorService) : FactoryResult :=
  ⟨s, .ok (), 0⟩

/-!
## ExecutorServiceProvider

The pool holds `std::vector<ExecutorServicePtr> executors_` and a counter
`executorIdx_`.  Executor handles are modelled by their identity only: a `Nat`
id, with `nextId` modelling the fresh object produced by
`ExecutorService::create()`.  All pool operations run under the pool mutex,
so they are modelled as sequential state transformers.
-/

/-- State of an `ExecutorServiceProvider`: the slot vector, the round-robin
counter, and a supply of fresh executor identities. -/
structure ExecutorServiceProvider where
  executors : List (Option Nat)
  executorIdx : Nat
  nextId : Nat
deriving DecidableEq, Repr

/-- Embeds the constructor `ExecutorServiceProvider(int nthreads)` (source
lines 140-141): `nthreads` empty slots, counter zero. -/
def mkProvider (nthreads : Nat) : ExecutorServiceProvider :=
  ⟨List.replicate nthreads none, 0, 0⟩

/-- Embeds `ExecutorServiceProvider::get` (source lines 143-152):
`idx = executorIdx_++ % executors_.size()`; lazily create-and-start into an
empty slot; return the handle.  When the slot vector is empty the C++ code's
`% executors_.size()` divides by zero (undefined behaviour), modelled as
`none`. -/
def ExecutorServiceProvider.get (p : ExecutorServiceProvider) :
    Option (ExecutorServiceProvider × Nat) :=
  if p.executors.length = 0 then
    none
  else
    let idx := p.executorIdx % p.executors.length
    match p.executors.get? idx with
    | none => none
    | some (some e) => some ({ p with executorIdx := p.executorIdx + 1 }, e)
    | some none =>
        let e := p.nextId
        some ({ executors := p.executors.set idx (some e),
                executorIdx := p.executorIdx + 1,
                nextId := e + 1 }, e)

/-- Modelled from the spec: `TimeoutProcessor<std::chrono::milliseconds>`
lives in `TimeUtils.h`, which is not among the sources here.  The spec
describes it as a shrinking-remainder timer over the original budget whose
remaining budget is never negative: `tik`/`tok` bracket each loop body and
subtract the elapsed time from the remaining budget, stopping at zero once
the budget is exhausted; `getLeftTimeout` reads the remaining budget. -/
structure TimeoutProcessor where
  timeLeft : Int
deriving DecidableEq, Repr

/-- Modelled from the spec: one `tik`/`tok` bracket that measured
`elapsedMs` milliseconds shrinks a positive remaining budget by the elapsed
time, clamping at zero. -/
def TimeoutProcessor.tok (tp : TimeoutProcessor) (elapsedMs : Nat) :
    TimeoutProcessor :=
  if 0 < tp.timeLeft then ⟨max 0 (tp.timeLeft - elapsedMs)⟩ else tp

/-- The loop of `ExecutorServiceProvider::close` (source lines 158-165):
for each slot, `tik`; if populated, close the executor with
`getLeftTimeout()`; `tok`; `reset()` the slot.  `elapsed` is the environment:
the wall-clock milliseconds each iteration consumed (an exhausted list means
no further time passes).  Returns the final slot vector and, per slot, the
timeout handed to that slot's `close` (or `none` for an empty slot). -/
def closeLoop : List (Option Nat) → List Nat → TimeoutProcessor →
    List (Option Nat) × List (Option Int)
  | [], _, _ => ([], [])
  | slot :: rest, [], tp =>
      let budget := slot.map fun _ => tp.timeLeft
      let r := closeLoop rest [] tp
      (none :: r.1, budget :: r.2)
  | slot :: rest, e :: es, tp =>
      let budget := slot.map fun _ => tp.timeLeft
      let r := closeLoop rest es (tp.tok e)
      (none :: r.1, budget :: r.2)

/-- Embeds `ExecutorServiceProvider::close(long timeoutMs)` (source lines 154-166):
run `closeLoop` over the slots with a fresh `TimeoutProcessor{timeoutMs}`. -/
def ExecutorServiceProvider.close (p : ExecutorServiceProvider)
    (timeoutMs : Int) (elapsed : List Nat) :
    ExecutorServiceProvider × List (Option Int) :=
  let r := closeLoop p.executors elapsed ⟨timeoutMs⟩
  ({ p with executors := r.1 }, r.2)

/-- Runs `k` successive calls of `ExecutorServiceProvider::get`, collecting the
returned handles in call order. -/
def getSeq (p : ExecutorServiceProvider) :
    Nat → Option (ExecutorServiceProvider × List Nat)
  | 0 => some (p, [])
  | k + 1 =>
      match p.get with
      | none => none
      | some (p1, h) =>
          match getSeq p1 k with
          | none => none
          | some (p2, hs) => some (p2, h :: hs)

/-- The provider state after the first `k` calls of `get` on a fresh provider
with `n` slots (`k ≤ n`): slots `0..k-1` hold executors `0..k-1`, the rest
are empty, and both counters equal `k`. -/
def stateAfter (n k : Nat) : ExecutorServiceProvider :=
  ⟨(List.range k).map some ++ List.replicate (n - k) none, k, k⟩

/-!
## Theorems about `ExecutorService`
-/

/-- C3: for the first caller of `close(timeoutMs)` (the `closed` flag not yet
set): with `timeoutMs == 0` it signals stop and returns immediately without
waiting; with `timeoutMs > 0` it signals stop and performs a bounded wait that
ends with the finished flag set exactly when the flag was already set or the
worker finishes within the timeout; with `timeoutMs < 0` it signals stop and
performs an unbounded wait, returning only with the finished flag set. -/
theorem close_first_caller (s : ExecutorService) (t : Int) (fin : Bool)
    (h : s.closed = false) :
    (t = 0 → s.close t fin =
      ⟨{ s with closed := true, stopped := true }, true, WaitKind.noWait⟩) ∧
    (0 < t →
      (s.close t fin).signaledStop = true ∧
      (s.close t fin).wait = WaitKind.bounded t ∧
      (s.close t fin).state.ioServiceDone = (s.ioServiceDone || fin) ∧
      ((s.ioServiceDone || fin) = false →
        (s.close t fin).state = { s with closed := true, stopped := true })) ∧
    (t < 0 →
      (s.close t fin).signaledStop = true ∧
      (s.close t fin).wait = WaitKind.unbounded ∧
      (s.close t fin).state.ioServiceDone = true) := by
  refine ⟨fun ht => ?_, fun ht => ?_, fun ht => ?_⟩
  · simp [ExecutorService.close, h, ht]
  · have ht0 : ¬t = 0 := by omega
    cases hio : s.ioServiceDone <;> cases hfin : fin <;>
      simp [ExecutorService.close, h, ht0, ht, hio, hfin, workerFinish]
  · have ht0 : ¬t = 0 := by omega
    have ht1 : ¬0 < t := by omega
    simp [ExecutorService.close, h, ht0, ht1, workerFinish]

theorem close_first_caller_witness :
    (ExecutorService.create.close (-1) false).state.ioServiceDone = true :=
  ((close_first_caller ExecutorService.create (-1) false rfl).2.2
    (by decide)).2.2

/-- C4: at most one call transitions `closed` from false to true (the CAS);
the winning call signals stop, and every later close call is a no-op that
does not signal stop again, whatever timeout it passes. -/
theorem close_cas_at_most_once (s : ExecutorService) (t t' : Int)
    (fin fin' : Bool) :
    (s.closed = true → s.close t fin = ⟨s, false, WaitKind.noWait⟩) ∧
    (s.closed = false →
      (s.close t fin).state.closed = true ∧
      (s.close t fin).signaledStop = true ∧
      (s.close t fin).state.close t' fin' =
        ⟨(s.close t fin).state, false, WaitKind.noWait⟩) := by
  have noop : ∀ (s' : ExecutorService) (u : Int) (g : Bool),
      s'.closed = true → s'.close u g = ⟨s', false, WaitKind.noWait⟩ := by
    intro s' u g h'
    simp [ExecutorService.close, h']
  refine ⟨fun h => noop s t fin h, fun h => ?_⟩
  have hc : (s.close t fin).state.closed = true ∧
      (s.close t fin).signaledStop = true := by
    by_cases ht0 : t = 0
    · simp [ExecutorService.close, h, ht0]
    · by_cases ht1 : 0 < t
      · cases hio : s.ioServiceDone <;> cases hfin : fin <;>
          simp [ExecutorService.close, h, ht0, ht1, hio, hfin, workerFinish]
      · simp [ExecutorService.close, h, ht0, ht1, workerFinish]
  exact ⟨hc.1, hc.2, noop _ t' fin' hc.1⟩

theorem close_cas_at_most_once_witness :
    (ExecutorService.create.close 5 true).state.close (-1) false =
      ⟨(ExecutorService.create.close 5 true).state, false, WaitKind.noWait⟩ :=
  ((close_cas_at_most_once ExecutorService.create 5 (-1) true false).2
    rfl).2.2

/-- C1 counterexample: the destructor is `close(0)`, which differs from an
unbounded `close(-1)`: on a freshly created executor it returns without
waiting and with the finished flag still false, so destruction does not
behave as `close` with `timeoutMs < 0`. -/
theorem destructor_counterexample :
    ExecutorService.create.destructor ≠
      ExecutorService.create.close (-1) false ∧
    (ExecutorService.create.destructor).state.ioServiceDone = false ∧
    (ExecutorService.create.destructor).wait = WaitKind.noWait := by
  decide

/-- C1 amended: the destructor performs a non-blocking `close(0)`: if no close
has begun it signals the reactor to stop and returns immediately without
waiting for the finished flag; if a close has already begun it is a no-op. -/
theorem destructor_nonblocking (s : ExecutorService) :
    s.destructor = s.close 0 false ∧
    (s.closed = false →
      s.destructor =
        ⟨{ s with closed := true, stopped := true }, true, WaitKind.noWait⟩) ∧
    (s.closed = true → s.destructor = ⟨s, false, WaitKind.noWait⟩) := by
  refine ⟨rfl, fun h => ?_, fun h => ?_⟩
  · simp [ExecutorService.destructor, ExecutorService.close, h]
  · simp [ExecutorService.destructor, ExecutorService.close, h]

theorem destructor_nonblocking_witness :
    ExecutorService.create.destructor =
      ⟨{ ExecutorService.create with closed := true, stopped := true },
        true, WaitKind.noWait⟩ :=
  (destructor_nonblocking ExecutorService.create).2.1 rfl

/-- C2 counterexample: `restart()` begins with `close(-1)`, a blocking
unbounded close — on a freshly created executor the inner close performs an
unbounded wait, not an immediate non-blocking close. -/
theorem restart_counterexample :
    (ExecutorService.create.restart).innerClose.wait = WaitKind.unbounded ∧
    (ExecutorService.create.restart).innerClose.wait ≠ WaitKind.noWait := by
  decide

/-- C2 amended: `restart()` first performs an unconditional blocking
`close(-1)` with an unbounded wait (treating any in-flight close as already
satisfied: if `closed` is already set the inner close is a no-op), then
clears the closed flag, clears the finished flag under the mutex, resets the
reactor, and starts a fresh worker thread; afterwards the finished flag is
false again and `createDeadlineTimer` can succeed. -/
theorem restart_amended (s : ExecutorService) :
    s.restart.innerClose = s.close (-1) false ∧
    (s.closed = false → s.restart.innerClose.wait = WaitKind.unbounded) ∧
    (s.closed = true → s.restart.innerClose = ⟨s, false, WaitKind.noWait⟩) ∧
    s.restart.state.closed = false ∧
    s.restart.state.ioServiceDone = false ∧
    s.restart.state.stopped = false ∧
    s.restart.state.running = true ∧
    (s.restart.state.createDeadlineTimer none).result = Except.ok () ∧
    (s.restart.state.createDeadlineTimer none).restarts = 0 := by
  refine ⟨rfl, fun h => ?_, fun h => ?_, rfl, rfl, rfl, rfl, rfl, rfl⟩
  · simp [ExecutorService.restart, ExecutorService.close, h, workerFinish]
  · simp [ExecutorService.restart, ExecutorService.close, h]

theorem restart_amended_witness :
    (ExecutorService.create.restart).innerClose.wait = WaitKind.unbounded :=
  (restart_amended ExecutorService.create).2.1 rfl

/-- C5: each of `createSocket`, `createTcpResolver`, `createDeadlineTimer`
reacts to an allocation failure with exactly one `restart` followed by a
construction error carrying the original failure description, and succeeds
with no restart otherwise; `createTlsSocket` performs no restart on any
path. -/
theorem factory_failure_restarts (s : ExecutorService) (ewhat : String) :
    (s.createSocket (some ewhat)).restarts = 1 ∧
    (s.createSocket (some ewhat)).state = s.restart.state ∧
    (s.createSocket (some ewhat)).result =
      Except.error ("Failed to create socket: " ++ ewhat) ∧
    (s.createTcpResolver (some ewhat)).restarts = 1 ∧
    (s.createTcpResolver (some ewhat)).state = s.restart.state ∧
    (s.createTcpResolver (some ewhat)).result =
      Except.error ("Failed to create resolver: " ++ ewhat) ∧
    (s.createDeadlineTimer (some ewhat)).restarts = 1 ∧
    (s.createDeadlineTimer (some ewhat)).state = s.restart.state ∧
    (s.createDeadlineTimer (some ewhat)).result =
      Except.error ("Failed to create deadline_timer: " ++ ewhat) ∧
    s.createSocket none = ⟨s, Except.ok (), 0⟩ ∧
    s.createTcpResolver none = ⟨s, Except.ok (), 0⟩ ∧
    s.createDeadlineTimer none = ⟨s, Except.ok (), 0⟩ ∧
    s.createTlsSocket.restarts = 0 ∧
    s.createTlsSocket.state = s := by
  exact ⟨rfl, rfl, rfl, rfl, rfl, rfl, rfl, rfl, rfl, rfl, rfl, rfl, rfl, rfl⟩

/-!
## Helper lemmas about lists and `get`
-/

theorem get_append_len {α : Type} (A : List α) (x : α) (B : List α) :
    (A ++ x :: B).get? A.length = some x := by
  induction A with
  | nil => rfl
  | cons a A ih =>
      simp only [List.cons_append, List.length_cons, List.get?_cons_succ]
      exact ih

theorem get_append_len' {α : Type} (A : List α) (x : α) (B : List α)
    (i : Nat) (h : i = A.length) : (A ++ x :: B).get? i = some x := by
  subst h
  exact get_append_len A x B

theorem set_append_len {α : Type} (A : List α) (x y : α) (B : List α) :
    (A ++ x :: B).set A.length y = A ++ y :: B := by
  induction A with
  | nil => rfl
  | cons a A ih =>
      simp only [List.cons_append, List.length_cons, List.set_cons_succ]
      rw [ih]

theorem set_append_len' {α : Type} (A : List α) (x y : α) (B : List α)
    (i : Nat) (h : i = A.length) : (A ++ x :: B).set i y = A ++ y :: B := by
  subst h
  exact set_append_len A x y B

/-- When the round-robin index lands on an empty slot, `get` creates a fresh
executor there. -/
theorem get_eq_create (p : ExecutorServiceProvider)
    (hlen : ¬p.executors.length = 0)
    (hget : p.executors.get? (p.executorIdx % p.executors.length) =
      some none) :
    p.get = some (⟨p.executors.set (p.executorIdx % p.executors.length)
      (some p.nextId), p.executorIdx + 1, p.nextId + 1⟩, p.nextId) := by
  simp only [ExecutorServiceProvider.get, hget]
  rw [if_neg hlen]

/-- When the round-robin index lands on a populated slot, `get` returns the
executor already there and only bumps the counter. -/
theorem get_eq_existing (p : ExecutorServiceProvider) (e : Nat)
    (hlen : ¬p.executors.length = 0)
    (hget : p.executors.get? (p.executorIdx % p.executors.length) =
      some (some e)) :
    p.get = some ({ p with executorIdx := p.executorIdx + 1 }, e) := by
  simp only [ExecutorServiceProvider.get, hget]
  rw [if_neg hlen]

/-- One `get` on the canonical state after `k < n` calls: slot `k` is empty,
so executor `k` is created there. -/
theorem get_stateAfter (n k : Nat) (hk : k < n) :
    (stateAfter n k).get = some (stateAfter n (k + 1), k) := by
  have h1 : n - k = (n - (k + 1)) + 1 := by omega
  have hA : ((List.range k).map (some : Nat → Option Nat)).length = k := by
    simp
  have hexec : (List.range k).map (some : Nat → Option Nat) ++
      List.replicate (n - k) none =
      (List.range k).map some ++ none :: List.replicate (n - (k + 1)) none := by
    rw [h1, List.replicate_succ]
  have hget : ((List.range k).map (some : Nat → Option Nat) ++
      List.replicate (n - k) none).get? k = some none := by
    rw [hexec]
    exact get_append_len' _ _ _ k hA.symm
  have hset : ((List.range k).map (some : Nat → Option Nat) ++
      List.replicate (n - k) none).set k (some k) =
      (List.range (k + 1)).map some ++ List.replicate (n - (k + 1)) none := by
    rw [hexec, set_append_len' _ _ _ _ k hA.symm, List.range_succ]
    simp
  have hlen : ((List.range k).map (some : Nat → Option Nat) ++
      List.replicate (n - k) none).length = n := by
    simp
    omega
  simp only [stateAfter, ExecutorServiceProvider.get, hlen,
    Nat.mod_eq_of_lt hk, hget, hset]
  rw [if_neg (by omega : ¬n = 0)]

/-- The first `j` calls starting from the canonical state after `k` calls
(`k + j ≤ n`) return executors `k, k+1, ..., k+j-1` in order. -/
theorem getSeq_stateAfter (n : Nat) :
    ∀ (j k : Nat), k + j ≤ n →
      getSeq (stateAfter n k) j =
        some (stateAfter n (k + j), List.range' k j) := by
  intro j
  induction j with
  | zero =>
      intro k hk
      simp [getSeq, List.range']
  | succ j ih =>
      intro k hk
      have h1 := get_stateAfter n k (by omega)
      have h2 := ih (k + 1) (by omega)
      simp only [getSeq, h1, h2]
      have h3 : k + 1 + j = k + (j + 1) := by omega
      simp [List.range', h3]

/-- Unfolding one successful `get` at the front of a `getSeq` run. -/
theorem getSeq_succ_eq (p p1 : ExecutorServiceProvider) (hh k : Nat)
    (hpg : p.get = some (p1, hh)) :
    getSeq p (k + 1) = (getSeq p1 k).map fun r => (r.1, hh :: r.2) := by
  simp only [getSeq, hpg]
  cases getSeq p1 k with
  | none => rfl
  | some r => rfl

/-- A failing `get` at the front aborts the whole `getSeq` run. -/
theorem getSeq_succ_none (p : ExecutorServiceProvider) (k : Nat)
    (hpg : p.get = none) : getSeq p (k + 1) = none := by
  simp only [getSeq, hpg]

/-- Appending one more `get` to a successful sequence of `k` calls. -/
theorem getSeq_snoc (k : Nat) :
    ∀ (p q q1 : ExecutorServiceProvider) (hs : List Nat) (h1 : Nat),
      getSeq p k = some (q, hs) → q.get = some (q1, h1) →
      getSeq p (k + 1) = some (q1, hs ++ [h1]) := by
  induction k with
  | zero =>
      intro p q q1 hs h1 h hget
      simp only [getSeq, Option.some.injEq, Prod.mk.injEq] at h
      obtain ⟨rfl, rfl⟩ := h
      simp [getSeq, hget]
  | succ k ih =>
      intro p q q1 hs h1 h hget
      cases hpg : p.get with
      | none =>
          rw [getSeq_succ_none p k hpg] at h
          exact absurd h (by simp)
      | some pr =>
          obtain ⟨p1, hh⟩ := pr
          rw [getSeq_succ_eq p p1 hh k hpg] at h
          rw [getSeq_succ_eq p p1 hh (k + 1) hpg]
          cases hseq : getSeq p1 k with
          | none =>
              rw [hseq] at h
              exact absurd h (by simp)
          | some qr =>
              obtain ⟨q2, hs2⟩ := qr
              rw [hseq] at h
              simp only [Option.map_some', Option.some.injEq,
                Prod.mk.injEq] at h
              obtain ⟨rfl, rfl⟩ := h
              rw [ih p1 q2 q1 hs2 h1 hseq hget]
              simp

/-- The slot vector after the pool's close loop: every slot was reset. -/
theorem closeLoop_fst : ∀ (slots : List (Option Nat)) (es : List Nat)
    (tp : TimeoutProcessor),
    (closeLoop slots es tp).1 = List.replicate slots.length none := by
  intro slots
  induction slots with
  | nil => intro es tp; rfl
  | cons s0 rest ih =>
      intro es tp
      cases es with
      | nil => simp [closeLoop, ih, List.replicate_succ]
      | cons e es => simp [closeLoop, ih, List.replicate_succ]

/-- The timeout handed to slot `i` by the pool's close loop is the
processor's remaining budget after the elapsed times of the slots before
it. -/
theorem closeLoop_snd : ∀ (slots : List (Option Nat)) (es : List Nat)
    (tp : TimeoutProcessor) (i : Nat) (slot : Option Nat),
    slots.get? i = some slot →
    (closeLoop slots es tp).2.get? i =
      some (slot.map fun _ =>
        (List.foldl TimeoutProcessor.tok tp (es.take i)).timeLeft) := by
  intro slots
  induction slots with
  | nil => intro es tp i slot h; simp at h
  | cons s0 rest ih =>
      intro es tp i slot h
      cases i with
      | zero =>
          simp only [List.get?_cons_zero, Option.some.injEq] at h
          subst h
          cases es with
          | nil => simp [closeLoop]
          | cons e es => simp [closeLoop]
      | succ i =>
          simp only [List.get?_cons_succ] at h
          cases es with
          | nil =>
              have h2 := ih [] tp i slot h
              simp [closeLoop]
              simpa using h2
          | cons e es =>
              have h2 := ih es (tp.tok e) i slot h
              simp [closeLoop, List.take_succ_cons]
              simpa using h2

theorem max_sub_helper (b c d : Int) (hd : 0 ≤ d) :
    max 0 (max 0 (b - c) - d) = max 0 (b - (c + d)) := by
  rcases le_total (b - c) 0 with h | h
  · rw [max_eq_left h, max_eq_left (by linarith : 0 - d ≤ 0),
      max_eq_left (by linarith : b - (c + d) ≤ 0)]
  · rw [max_eq_right h]
    congr 1
    ring

/-- A nonnegative budget shrunk by a list of elapsed times is the original
budget minus the total elapsed time, clamped at zero. -/
theorem foldl_tok_timeLeft : ∀ (es : List Nat) (b : Int), 0 ≤ b →
    (List.foldl TimeoutProcessor.tok ⟨b⟩ es).timeLeft =
      max 0 (b - ((es.sum : Nat) : Int)) := by
  intro es
  induction es with
  | nil =>
      intro b hb
      simp
      omega
  | cons e es ih =>
      intro b hb
      by_cases hpos : 0 < b
      · have h1 : TimeoutProcessor.tok ⟨b⟩ e = ⟨max 0 (b - (e : Int))⟩ := by
          simp [TimeoutProcessor.tok, hpos]
        rw [List.foldl_cons, h1, ih _ (le_max_left 0 _)]
        simp only [List.sum_cons, Nat.cast_add]
        exact max_sub_helper _ _ _ (Int.ofNat_nonneg _)
      · have hb0 : b = 0 := by omega
        subst hb0
        have h1 : TimeoutProcessor.tok ⟨0⟩ e = ⟨0⟩ := by
          simp [TimeoutProcessor.tok]
        rw [List.foldl_cons, h1, ih 0 le_rfl]
        have hs : (0 : Int) ≤ ((es.sum : Nat) : Int) := Int.ofNat_nonneg _
        have hs2 : (0 : Int) ≤ (((e :: es).sum : Nat) : Int) :=
          Int.ofNat_nonneg _
        rw [max_eq_left (by linarith), max_eq_left (by linarith)]

/-- C6: whatever error flag the dispatch loop returned with, the worker
thread's epilogue sets the finished flag to true and notifies all waiters;
an error is logged exactly when the loop failed, nothing is propagated and
no restart is triggered; no other executor state is touched. -/
theorem worker_exit_always_finishes (s : ExecutorService) (ec : Bool) :
    (workerThreadBody s ec).state.ioServiceDone = true ∧
    (workerThreadBody s ec).notifiedAll = true ∧
    (workerThreadBody s ec).loggedError = ec ∧
    (workerThreadBody s ec).triggeredRestart = false ∧
    (workerThreadBody s ec).state.closed = s.closed ∧
    (workerThreadBody s ec).state.stopped = s.stopped ∧
    (workerThreadBody s ec).state = workerFinish s := by
  exact ⟨rfl, rfl, rfl, rfl, rfl, rfl, rfl⟩

/-- C7: on a fresh pool of `n ≥ 1` slots, the first `n` calls to `get`
return executors `0, 1, ..., n-1`, call `i` populating slot `i-1` — `n`
handles in `n` distinct slots — and the `(n+1)`-th call wraps around and
returns the same handle `0` as the first call. -/
theorem pool_round_robin (n : Nat) (hn : 1 ≤ n) :
    getSeq (mkProvider n) n = some (stateAfter n n, List.range n) ∧
    (stateAfter n n).executors = (List.range n).map some ∧
    (∀ i, i < n → (stateAfter n n).executors.get? i = some (some i)) ∧
    (List.range n).get? 0 = some 0 ∧
    getSeq (mkProvider n) (n + 1) =
      some ({ stateAfter n n with executorIdx := n + 1 },
        List.range n ++ [0]) := by
  have h0 : mkProvider n = stateAfter n 0 := by
    simp [mkProvider, stateAfter]
  have hrange : List.range' 0 n = List.range n := (List.range_eq_range' n).symm
  have hseq : getSeq (mkProvider n) n =
      some (stateAfter n n, List.range n) := by
    rw [h0, getSeq_stateAfter n n 0 (by omega), hrange]
    norm_num
  have hexe : (stateAfter n n).executors = (List.range n).map some := by
    simp [stateAfter]
  have hslot : ∀ i, i < n →
      (stateAfter n n).executors.get? i = some (some i) := by
    intro i hi
    rw [hexe, List.get?_map, List.get?_range hi]
    rfl
  have hr0 : (List.range n).get? 0 = some 0 := List.get?_range (by omega)
  have hlen0 : ¬(stateAfter n n).executors.length = 0 := by
    rw [hexe]
    simp
    omega
  have hmod : (stateAfter n n).executorIdx %
      (stateAfter n n).executors.length = 0 := by
    have hl : (stateAfter n n).executors.length = n := by
      rw [hexe]
      simp
    show n % (stateAfter n n).executors.length = 0
    rw [hl, Nat.mod_self]
  have hget0 : (stateAfter n n).executors.get?
      ((stateAfter n n).executorIdx % (stateAfter n n).executors.length) =
      some (some 0) := by
    rw [hmod]
    exact hslot 0 (by omega)
  have hwrap := get_eq_existing (stateAfter n n) 0 hlen0 hget0
  have hfull := getSeq_snoc n (mkProvider n) (stateAfter n n) _
    (List.range n) 0 hseq hwrap
  exact ⟨hseq, hexe, hslot, hr0, hfull⟩

theorem pool_round_robin_witness :
    getSeq (mkProvider 3) (3 + 1) =
      some ({ stateAfter 3 3 with executorIdx := 3 + 1 },
        List.range 3 ++ [0]) :=
  (pool_round_robin 3 (by decide)).2.2.2.2

/-- C8: `ExecutorServiceProvider::close(timeoutMs)` with a nonnegative
budget hands each populated slot the time remaining from the original
budget — the budget minus the elapsed time of all earlier iterations,
clamped at zero, hence never negative — and resets every slot afterwards,
whether or not its close finished in time. -/
theorem pool_close_budgets (p : ExecutorServiceProvider) (b : Int)
    (hb : 0 ≤ b) (es : List Nat) :
    (∀ slot ∈ (p.close b es).1.executors, slot = none) ∧
    (p.close b es).1.executors.length = p.executors.length ∧
    (∀ i slot, p.executors.get? i = some slot →
      (p.close b es).2.get? i =
        some (slot.map fun _ =>
          max 0 (b - (((es.take i).sum : Nat) : Int)))) := by
  have h1 : (p.close b es).1.executors =
      List.replicate p.executors.length none := by
    show (closeLoop p.executors es ⟨b⟩).1 = _
    exact closeLoop_fst p.executors es ⟨b⟩
  refine ⟨?_, ?_, ?_⟩
  · intro slot hmem
    rw [h1] at hmem
    exact List.eq_of_mem_replicate hmem
  · rw [h1]
    simp
  · intro i slot h
    have h2 := closeLoop_snd p.executors es ⟨b⟩ i slot h
    have h3 := foldl_tok_timeLeft (es.take i) b hb
    show (closeLoop p.executors es ⟨b⟩).2.get? i = _
    rw [h2, h3]

theorem pool_close_budgets_witness :
    ((⟨[some 0, some 1, some 2], 3, 3⟩ :
        ExecutorServiceProvider).close 300 [250, 30]).2.get? 2 =
      some (some 20) := by
  have h := (pool_close_budgets ⟨[some 0, some 1, some 2], 3, 3⟩ 300
    (by decide) [250, 30]).2.2 2 (some 2) rfl
  rw [h]
  decide

/-- C9: `get` never replaces a populated slot — every populated slot keeps
its handle across `get`, and `get` writes only to a slot that was empty;
the pool's close is the only operation that returns slots to empty (and it
empties all of them). -/
theorem pool_slot_once_populated (p p1 : ExecutorServiceProvider)
    (hnd : Nat) (hg : p.get = some (p1, hnd)) :
    (∀ i e, p.executors.get? i = some (some e) →
      p1.executors.get? i = some (some e)) ∧
    (p1.executors = p.executors ∨
      ∃ j, p.executors.get? j = some none ∧
        p1.executors = p.executors.set j (some hnd)) ∧
    (∀ (t : Int) (es : List Nat) (slot : Option Nat),
      slot ∈ (p.close t es).1.executors → slot = none) := by
  have hinv : p1.executors = p.executors ∨
      ∃ j, p.executors.get? j = some none ∧
        p1.executors = p.executors.set j (some hnd) := by
    by_cases hlen : p.executors.length = 0
    · simp only [ExecutorServiceProvider.get] at hg
      rw [if_pos hlen] at hg
      exact absurd hg (by simp)
    · simp only [ExecutorServiceProvider.get] at hg
      rw [if_neg hlen] at hg
      cases hq : p.executors.get? (p.executorIdx % p.executors.length) with
      | none =>
          simp only [hq] at hg
          exact Option.noConfusion hg
      | some slot =>
          cases slot with
          | none =>
              simp only [hq, Option.some.injEq, Prod.mk.injEq] at hg
              obtain ⟨rfl, rfl⟩ := hg
              exact Or.inr ⟨_, hq, rfl⟩
          | some e =>
              simp only [hq, Option.some.injEq, Prod.mk.injEq] at hg
              obtain ⟨rfl, rfl⟩ := hg
              exact Or.inl rfl
  refine ⟨?_, hinv, ?_⟩
  · intro i e hi
    cases hinv with
    | inl heq => rw [heq]; exact hi
    | inr hset =>
        obtain ⟨j, hj, heq⟩ := hset
        rw [heq]
        by_cases hij : j = i
        · subst hij
          rw [hj] at hi
          exact absurd hi (by simp)
        · rw [List.get?_set_ne _ _ hij]
          exact hi
  · intro t es slot hmem
    have h1 : (p.close t es).1.executors =
        List.replicate p.executors.length none := by
      show (closeLoop p.executors es ⟨t⟩).1 = _
      exact closeLoop_fst p.executors es ⟨t⟩
    rw [h1] at hmem
    exact List.eq_of_mem_replicate hmem

theorem pool_slot_once_populated_witness :
    (⟨[some 7], 1, 0⟩ : ExecutorServiceProvider).executors.get? 0 =
      some (some 7) :=
  (pool_slot_once_populated ⟨[some 7], 0, 0⟩ ⟨[some 7], 1, 0⟩ 7
    (by decide)).1 0 7 rfl

/-- C10: `get` on a pool constructed with zero slots hits the modulo by
zero and is undefined (modelled as `none`); on any pool with at least one
slot the computed index is in range and `get` returns a handle whose slot
is populated. -/
theorem get_requires_nonempty_pool :
    (mkProvider 0).get = none ∧
    (∀ p : ExecutorServiceProvider, 1 ≤ p.executors.length →
      p.executorIdx % p.executors.length < p.executors.length ∧
      ∃ p1 hnd, p.get = some (p1, hnd) ∧
        p1.executors.get? (p.executorIdx % p.executors.length) =
          some (some hnd)) := by
  constructor
  · rfl
  · intro p hp
    have hlen : ¬p.executors.length = 0 := by omega
    have hmod : p.executorIdx % p.executors.length < p.executors.length :=
      Nat.mod_lt _ (by omega)
    refine ⟨hmod, ?_⟩
    cases hq : p.executors.get? (p.executorIdx % p.executors.length) with
    | none =>
        have := List.get?_eq_none.mp hq
        omega
    | some slot =>
        cases slot with
        | none =>
            refine ⟨_, _, get_eq_create p hlen hq, ?_⟩
            exact List.get?_set_eq_of_lt (some p.nextId) hmod
        | some e =>
            exact ⟨_, _, get_eq_existing p e hlen hq, hq⟩

theorem get_requires_nonempty_pool_witness :
    (mkProvider 3).executorIdx % (mkProvider 3).executors.length <
      (mkProvider 3).executors.length :=
  ((get_requires_nonempty_pool).2 (mkProvider 3) (by decide)).1

end PulsarExec
